import Mathlib

/-!
Verification of the schedule extractor of `tools/fetch_official_schedule.py`
and the week lookup of `app.py`.

The Python code is shallowly embedded:

* strings are Lean `String`s / `List Char`s; the ASCII fragment of Python's
  character classes (`\s`, `\d`, `[A-Za-z]`, `str.lower`, `str.strip`) is
  modelled, which covers every line shape the extractor distinguishes;
* the regular expressions are embedded via a small backtracking engine
  (`mrun`) whose exploration order mirrors CPython `re`: alternation prefers
  the left branch, `+`/`{m,n}` are greedy, `+?` is lazy, `(...)?` is greedy,
  `.` matches everything but a newline, and `$` accepts the end of the input
  or a position just before a final newline;
* Python dicts are association lists with insert-or-overwrite update
  (`dset`) and first-hit lookup (`dget`); insertion order is preserved;
* exceptions (`ValueError` from `datetime`, `OverflowError` from
  `astimezone`) are modelled with `Except PyErr`;
* `datetime`/`ZoneInfo` arithmetic is modelled on minutes since
  0001-01-01T00:00 (proleptic Gregorian, as `datetime` uses), with the
  post-2007 United States DST rules for America/New_York and
  America/Chicago — the regime the tz database prescribes for both zones for
  every date the schedule at hand can mention — and PEP-495 fold=0
  disambiguation.
-/

namespace NflPickem

/-! ## Python dict model: association lists, insertion ordered -/

/-- `d[k] = v` on a Python dict: overwrite in place when the key is
present (replace the first hit — the association lists built here never
hold a key twice), append at the end otherwise.  Insertion order is
preserved, as in Python. -/
def dset {K V : Type} [DecidableEq K] : List (K × V) → K → V → List (K × V)
  | [], k, v => [(k, v)]
  | p :: rest, k, v => if p.1 = k then (k, v) :: rest else p :: dset rest k v

/-- `d.get(k)` on a Python dict. -/
def dget {K V : Type} [DecidableEq K] : List (K × V) → K → Option V
  | [], _ => none
  | p :: rest, k => if p.1 = k then some p.2 else dget rest k

/-! ## Python string helpers (ASCII fragment) -/

/-- Python's `\s` class (ASCII part): space, tab, newline, carriage return,
vertical tab, form feed. -/
def pySpace (c : Char) : Bool :=
  c == ' ' || c == '\t' || c == '\n' || c == '\r' || c == '\x0b' || c == '\x0c'

/-- `str.strip()` (ASCII whitespace). -/
def pyStrip (s : String) : String :=
  String.mk (((s.data.dropWhile pySpace).reverse.dropWhile pySpace).reverse)

/-- `str.lower()` (ASCII letters). -/
def pyLower (s : String) : String := String.mk (s.data.map Char.toLower)

/-- `re.sub(r"\s+", "", s)`: drop every whitespace character. -/
def dropSpaces (l : List Char) : List Char := l.filter (fun c => !pySpace c)

/-- `str.replace(c1 ++ c2, r)` for a two-character pattern: left-to-right,
non-overlapping, as Python's `str.replace`. -/
def replace2 (c1 c2 r : Char) : List Char → List Char
  | [] => []
  | [c] => [c]
  | a :: b :: rest =>
    if a == c1 && b == c2 then r :: replace2 c1 c2 r rest
    else a :: replace2 c1 c2 r (b :: rest)

/-- `str.split()` worker; the fuel argument (initially the input length,
an upper bound on the number of steps) keeps the recursion structural. -/
def pySplitAux : Nat → List Char → List String
  | 0, _ => []
  | _, [] => []
  | fuel + 1, c :: rest =>
    if pySpace c then pySplitAux fuel rest
    else
      String.mk (c :: rest.takeWhile (fun d => !pySpace d)) ::
        pySplitAux fuel (rest.dropWhile (fun d => !pySpace d))

/-- `str.split()`: split on whitespace runs, no empty parts. -/
def pySplit (l : List Char) : List String := pySplitAux l.length l

/-- `int(s)` on a string of ASCII digits (the only shapes the extractor
feeds to `int`). -/
def digitsVal (l : List Char) : Nat :=
  l.foldl (fun acc c => 10 * acc + (c.toNat - 48)) 0

/-- `int(s)` as a partial function: succeeds on nonempty ASCII digit runs.
(Python's `int` also accepts a sign and surrounding whitespace; no token
the extractor converts has either.) -/
def decDigits? (l : List Char) : Option Nat :=
  if !l.isEmpty && l.all Char.isDigit then some (digitsVal l) else none

/-! ## A backtracking regex engine mirroring CPython `re` -/

/-- Regex abstract syntax: enough for the five patterns of the extractor.
`plusG`/`plusL` are greedy/lazy `+` over a single character class, `opt` is
a greedy `(...)?`, `grp` a capturing group. -/
inductive RX : Type where
  | eps : RX
  | cls : (Char → Bool) → RX
  | cat : RX → RX → RX
  | alt : RX → RX → RX
  | opt : RX → RX
  | plusG : (Char → Bool) → RX
  | plusL : (Char → Bool) → RX
  | grp : Nat → RX → RX

/-- Captured groups: group index paired with the captured characters. -/
abbrev Caps := List (Nat × List Char)

/-- First success over a list of candidates (backtracking order). -/
def firstSome (l : List Nat) (f : Nat → Option Caps) : Option Caps :=
  match l with
  | [] => none
  | x :: xs =>
    match f x with
    | some r => some r
    | none => firstSome xs f

/-- CPS backtracking matcher.  The continuation receives the remaining
input and the captures collected so far; exploration order is CPython's:
left alternative first, greedy `+` longest first, lazy `+` shortest first,
greedy `?` matching first. -/
def mrun : RX → List Char → Caps → (List Char → Caps → Option Caps) → Option Caps
  | .eps, s, g, k => k s g
  | .cls p, s, g, k =>
    match s with
    | [] => none
    | c :: rest => if p c then k rest g else none
  | .cat a b, s, g, k => mrun a s g (fun s2 g2 => mrun b s2 g2 k)
  | .alt a b, s, g, k =>
    match mrun a s g k with
    | some r => some r
    | none => mrun b s g k
  | .opt a, s, g, k =>
    match mrun a s g k with
    | some r => some r
    | none => k s g
  | .plusG p, s, g, k =>
    let n := (s.takeWhile p).length
    firstSome ((List.range n).map (fun i => n - i)) (fun i => k (s.drop i) g)
  | .plusL p, s, g, k =>
    let n := (s.takeWhile p).length
    firstSome ((List.range n).map (fun i => i + 1)) (fun i => k (s.drop i) g)
  | .grp i a, s, g, k =>
    mrun a s g (fun s2 g2 => k s2 ((i, s.take (s.length - s2.length)) :: g2))

/-- `re.match` against a pattern anchored with `$`: the whole line must be
consumed, except that `$` also accepts a position just before a final
newline (CPython semantics). -/
def rmatch (r : RX) (s : String) : Option Caps :=
  mrun r s.data [] (fun rest g =>
    if rest == [] || rest == ['\n'] then some g else none)

/-- A literal character. -/
def chrRX (c : Char) : RX := .cls (fun d => d == c)

/-- A case-insensitive literal character (`re.I`). -/
def ichrRX (c : Char) : RX := .cls (fun d => d.toLower == c.toLower)

/-- A case-sensitive literal string. -/
def strRX (s : String) : RX := s.data.foldr (fun c r => .cat (chrRX c) r) .eps

/-- A case-insensitive literal string (`re.I`). -/
def istrRX (s : String) : RX := s.data.foldr (fun c r => .cat (ichrRX c) r) .eps

/-- Concatenation of a list of regexes. -/
def catRX (l : List RX) : RX := l.foldr .cat .eps

/-- `[ap]` (the patterns use it case-sensitively). -/
def apCls (c : Char) : Bool := c == 'a' || c == 'p'

/-- `\d{1,2}` (ASCII digits). -/
def digit12 : RX := .cat (.cls Char.isDigit) (.opt (.cls Char.isDigit))

/-- `\d{2}` (ASCII digits). -/
def digit2 : RX := .cat (.cls Char.isDigit) (.cls Char.isDigit)

/-- `[A-Z]{2,4}`, greedy. -/
def upper24 : RX :=
  let u : RX := .cls (fun c => 'A' ≤ c && c ≤ 'Z')
  .cat u (.cat u (.opt (.cat u (.opt u))))

/-- Extract a group's capture as a string (groups occur at most once per
successful match of the patterns below). -/
def capStr (g : Caps) (i : Nat) : Option String :=
  (g.find? (fun p => p.1 == i)).map (fun p => String.mk p.2)

/-! ## The five line patterns of `build_schedule` -/

/-- `^WEEK\s+(\d+)$`, `re.I`. -/
def weekRX : RX := catRX [istrRX "WEEK", .plusG pySpace, .grp 1 (.plusG Char.isDigit)]

/-- `^(Monday|Tuesday|Wednesday|Thursday|Friday|Saturday|Sunday),?\s+[A-Za-z]+\.?\s+\d{1,2},\s+2025$`, `re.I`. -/
def dateRX : RX :=
  catRX [
    .grp 1 (.alt (istrRX "Monday") (.alt (istrRX "Tuesday") (.alt (istrRX "Wednesday")
      (.alt (istrRX "Thursday") (.alt (istrRX "Friday") (.alt (istrRX "Saturday")
        (istrRX "Sunday"))))))),
    .opt (chrRX ','), .plusG pySpace,
    .plusG Char.isAlpha, .opt (chrRX '.'), .plusG pySpace,
    digit12, chrRX ',', .plusG pySpace, strRX "2025"]

/-- `^(.+?)\s+(at|vs)\s+(.+?)(?:\s+\(([^)]+)\))?$`, `re.I`; `.` is any
character but a newline. -/
def gameRX : RX :=
  let dot : Char → Bool := fun c => !(c == '\n')
  catRX [
    .grp 1 (.plusL dot), .plusG pySpace,
    .grp 2 (.alt (istrRX "at") (istrRX "vs")), .plusG pySpace,
    .grp 3 (.plusL dot),
    .opt (catRX [.plusG pySpace, chrRX '(',
                 .grp 4 (.plusG (fun c => !(c == ')'))), chrRX ')'])]

/-- `^\d{1,2}:\d{2}[ap]\s+\([A-Z]{2,4}\)$` (case-sensitive). -/
def zoneRX : RX :=
  catRX [digit12, chrRX ':', digit2, .cls apCls,
         .plusG pySpace, chrRX '(', upper24, chrRX ')']

/-- `^\d{1,2}:\d{2}[ap]$` (case-sensitive). -/
def bareRX : RX := catRX [digit12, chrRX ':', digit2, .cls apCls]

/-- `^(\d{1,2}):(\d{2})([ap])$`, the strict pattern of
`parse_time_et_to_ct` (applied to lowercased input). -/
def timeRX : RX :=
  catRX [.grp 1 digit12, chrRX ':', .grp 2 digit2, .grp 3 (.cls apCls)]

/-! ## `datetime` / `ZoneInfo` model -/

/-- The exceptions the embedded fragment can raise. -/
inductive PyErr : Type where
  | valueError : PyErr
  | overflowError : PyErr
deriving DecidableEq, Repr

/-- Gregorian leap year. -/
def isLeap (y : Nat) : Bool := y % 4 == 0 && (y % 100 != 0 || y % 400 == 0)

/-- Length of a month. -/
def daysInMonth (y mo : Nat) : Nat :=
  if mo == 2 then (if isLeap y then 29 else 28)
  else if mo == 4 || mo == 6 || mo == 9 || mo == 11 then 30
  else 31

/-- The range check `datetime(y, mo, d, h, mi)` performs; a failure is a
`ValueError`. -/
def datetimeValid (y mo d h mi : Nat) : Prop :=
  1 ≤ y ∧ y ≤ 9999 ∧ 1 ≤ mo ∧ mo ≤ 12 ∧ 1 ≤ d ∧ d ≤ daysInMonth y mo ∧ h ≤ 23 ∧ mi ≤ 59

instance (y mo d h mi : Nat) : Decidable (datetimeValid y mo d h mi) := by
  unfold datetimeValid; infer_instance

/-- Days from 0000-03-01 to `y`-`mo`-`d`, proleptic Gregorian (the
March-based civil-calendar scheme); meaningful for `y ≥ 1`. -/
def days0 (y mo d : Nat) : Nat :=
  let yy := if mo ≤ 2 then y - 1 else y
  let mp := if mo ≤ 2 then mo + 9 else mo - 3
  let doy := (153 * mp + 2) / 5 + (d - 1)
  yy * 365 + yy / 4 - yy / 100 + yy / 400 + doy

/-- Days from 0001-01-01 (= day 0) to `y`-`mo`-`d`. -/
def daysN (y mo d : Nat) : Nat := days0 y mo d - 306

/-- Inverse of `days0`: day count since 0000-03-01 to `(y, mo, d)`. -/
def civil0 (z : Nat) : Nat × Nat × Nat :=
  let era := z / 146097
  let doe := z % 146097
  let yoe := (doe - doe / 1460 + doe / 36524 - doe / 146096) / 365
  let y := yoe + era * 400
  let doy := doe - (365 * yoe + yoe / 4 - yoe / 100)
  let mp := (5 * doy + 2) / 153
  let d := doy - (153 * mp + 2) / 5 + 1
  let mo := if mp < 10 then mp + 3 else mp - 9
  (if mo ≤ 2 then y + 1 else y, mo, d)

/-- Inverse of `daysN`. -/
def civilN (n : Nat) : Nat × Nat × Nat := civil0 (n + 306)

/-- Minutes from 0001-01-01T00:00 to the naive datetime `y-mo-d h:mi`. -/
def mkMin (y mo d h mi : Nat) : Nat := daysN y mo d * 1440 + h * 60 + mi

/-- Minutes since 0001-01-01T00:00 back to `(y, mo, d, h, mi)`. -/
def fromMin (t : Nat) : Nat × Nat × Nat × Nat × Nat :=
  let ymd := civilN (t / 1440)
  (ymd.1, ymd.2.1, ymd.2.2, t % 1440 / 60, t % 60)

/-- Day of the week, 0 = Monday (0001-01-01 was a Monday). -/
def dow (y mo d : Nat) : Nat := daysN y mo d % 7

/-- Day of month of the second Sunday of March. -/
def secondSunMar (y : Nat) : Nat := 8 + (6 - dow y 3 1)

/-- Day of month of the first Sunday of November. -/
def firstSunNov (y : Nat) : Nat := 1 + (6 - dow y 11 1)

/-- America/New_York is on daylight saving time at a fold-0 wall clock
reading (post-2007 US rule: from 2:00 EST on the second Sunday of March —
so wall readings below 3:00 that morning, including the nonexistent hour,
take the standard offset, as PEP 495 prescribes for fold=0 — until 2:00
EDT on the first Sunday of November, ambiguous readings resolving to the
pre-transition daylight offset). -/
def nyDst (y mo d h mi : Nat) : Bool :=
  let t := mkMin y mo d h mi
  decide (mkMin y 3 (secondSunMar y) 3 0 ≤ t) && decide (t < mkMin y 11 (firstSunNov y) 2 0)

/-- America/Chicago is on daylight saving time at a UTC instant
(transitions at 2:00 local = 8:00 UTC in March, 7:00 UTC in November). -/
def chiDstUtc (t : Nat) : Bool :=
  let y := (civilN (t / 1440)).1
  decide (mkMin y 3 (secondSunMar y) 8 0 ≤ t) && decide (t < mkMin y 11 (firstSunNov y) 7 0)

/-- The last representable minute, 9999-12-31T23:59. -/
def maxMin : Nat := mkMin 9999 12 31 23 59

/-- `dt.astimezone(ZoneInfo("America/Chicago"))` for a fold-0 aware
datetime in America/New_York: drop to UTC using the source offset derived
from the wall reading, then apply the destination offset derived from the
instant.  CPython raises `OverflowError` when an intermediate or final
value leaves the representable range. -/
def astimezoneNYtoChicago (y mo d h mi : Nat) : Except PyErr (Nat × Nat × Nat × Nat × Nat) :=
  let wall := mkMin y mo d h mi
  let utc := wall + (if nyDst y mo d h mi then 240 else 300)
  if utc > maxMin then .error .overflowError
  else
    let shift := if chiDstUtc utc then 300 else 360
    if utc < shift then .error .overflowError
    else .ok (fromMin (utc - shift))

/-- Zero-padded two-digit field. -/
def pad2 (n : Nat) : String := if n < 10 then "0" ++ toString n else toString n

/-- Zero-padded four-digit field. -/
def pad4 (n : Nat) : String :=
  if n < 10 then "000" ++ toString n
  else if n < 100 then "00" ++ toString n
  else if n < 1000 then "0" ++ toString n
  else toString n

/-- `strftime("%Y-%m-%dT%H:%M:00")`. -/
def isoFmt (t : Nat × Nat × Nat × Nat × Nat) : String :=
  pad4 t.1 ++ "-" ++ pad2 t.2.1 ++ "-" ++ pad2 t.2.2.1 ++ "T" ++
    pad2 t.2.2.2.1 ++ ":" ++ pad2 t.2.2.2.2 ++ ":00"

/-! ## `parse_time_et_to_ct` -/

/-- Match the strict pattern and extract `(int(group 1), int(group 2),
group 3)`; each group is present on every successful match, so the `getD`
defaults are never taken. -/
def timeGroups (s : String) : Option (Nat × Nat × String) :=
  match rmatch timeRX s with
  | none => none
  | some caps =>
    some (digitsVal ((capStr caps 1).getD "").data,
          digitsVal ((capStr caps 2).getD "").data,
          (capStr caps 3).getD "")

/-- The forgiving fallback text: `pm`/`am` collapsed to `p`/`a`, then all
whitespace removed. -/
def fallbackText (hm : String) : String :=
  String.mk (dropSpaces (replace2 'a' 'm' 'a' (replace2 'p' 'm' 'p' hm.data)))

/-- The two parse attempts of `parse_time_et_to_ct`: the strict pattern on
the stripped, lowercased text, then once more on the fallback text. -/
def timeParse (et_text : String) : Option (Nat × Nat × String) :=
  let hm := pyLower (pyStrip et_text)
  match timeGroups hm with
  | some r => some r
  | none => timeGroups (fallbackText hm)

/-- `parse_time_et_to_ct(date_ymd, et_text)`: strict parse with one
forgiving retry; empty string when both fail; otherwise a 12-hour to
24-hour conversion, the zone shift and `strftime`. -/
def parse_time_et_to_ct (date_ymd : Nat × Nat × Nat) (et_text : String) :
    Except PyErr String :=
  match timeParse et_text with
  | none => .ok ""
  | some (hh, mm, ap) =>
    let hour := hh % 12 + (if ap == "p" then 12 else 0)
    if datetimeValid date_ymd.1 date_ymd.2.1 date_ymd.2.2 hour mm then
      (astimezoneNYtoChicago date_ymd.1 date_ymd.2.1 date_ymd.2.2 hour mm).map isoFmt
    else .error .valueError

/-! ## `normalize_date_line` -/

/-- The `MONTHS` table. -/
def MONTHS : List (String × Nat) :=
  [("Jan", 1), ("January", 1), ("Feb", 2), ("February", 2), ("Mar", 3), ("March", 3),
   ("Apr", 4), ("April", 4), ("May", 5), ("Jun", 6), ("June", 6), ("Jul", 7), ("July", 7),
   ("Aug", 8), ("August", 8), ("Sep", 9), ("Sept", 9), ("September", 9),
   ("Oct", 10), ("October", 10), ("Nov", 11), ("November", 11), ("Dec", 12), ("December", 12)]

/-- `normalize_date_line(line)`: strip commas and periods, split, look the
month token up, convert day and year.  `int()` is modelled with
`decDigits?`; on every line this function is applied to (a `date_re`
match) the day token is a one-or-two ASCII digit run and the year token is
the literal `2025`, where the two agree (and `int` cannot raise). -/
def normalize_date_line (line : String) : Option (Nat × Nat × Nat) :=
  let s := pyStrip (String.mk (line.data.filter (fun c => !(c == ',') && !(c == '.'))))
  let parts := pySplit s.data
  if parts.length < 4 then none
  else
    match dget MONTHS (parts.getD 1 "") with
    | none => none
    | some month =>
      match decDigits? (parts.getD 2 "").data, decDigits? (parts.getD 3 "").data with
      | some day, some year => some (year, month, day)
      | _, _ => none

/-! ## The schedule state machine `build_schedule` -/

/-- A finalized game record, with exactly the fields the emitted dict
carries (`id`, `away`, `home`, `kickoff_local`, `note`). -/
structure Game where
  id : String
  away : String
  home : String
  kickoff_local : String
  note : String
deriving DecidableEq, Repr

/-- The `pending_game` dict (`away`, `home`, `note`, `neutral`). -/
structure Pending where
  away : String
  home : String
  note : String
  neutral : Bool
deriving DecidableEq, Repr

/-- The loop state of `build_schedule`. -/
structure St where
  weeks : List (String × List Game)
  current_week : Option Nat
  current_date : Option (Nat × Nat × Nat)
  pending_game : Option Pending
  game_counter : List (Nat × Nat)
deriving DecidableEq, Repr

/-- The returned schedule document. -/
structure Doc where
  year : Nat
  weeks : List (String × List Game)
deriving DecidableEq, Repr

/-- The state before the first line. -/
def initSt : St := ⟨[], none, none, none, []⟩

/-- Truthiness of `current_week`: `None` and `0` are falsy. -/
def truthyW : Option Nat → Bool
  | none => false
  | some w => !(w == 0)

/-- A JSON-ish value, for stating which keys a dict carries. -/
inductive PV : Type where
  | str : String → PV
  | bool : Bool → PV
deriving DecidableEq, Repr

/-- The key/value pairs of the dict literal appended to
`weeks[str(current_week)]` (source order). -/
def Game.toAssoc (g : Game) : List (String × PV) :=
  [("id", .str g.id), ("away", .str g.away), ("home", .str g.home),
   ("kickoff_local", .str g.kickoff_local), ("note", .str g.note)]

/-- The key/value pairs of the `pending_game` dict literal (source
order). -/
def Pending.toAssoc (p : Pending) : List (String × PV) :=
  [("away", .str p.away), ("home", .str p.home), ("note", .str p.note),
   ("neutral", .bool p.neutral)]

/-- The two time checks at the bottom of the loop body (reached when the
line is no week header, no date header, and no matchup taken with a truthy
week).  `game_counter[current_week] += 1` and
`weeks[str(current_week)].append(...)` address keys the loop always
creates together with `current_week`; the embedding reads them with `getD`
defaults. -/
def stepTimes (s : St) (ln : String) : Except PyErr St :=
  if (rmatch zoneRX ln).isSome then .ok s
  else if (rmatch bareRX ln).isSome then
    match s.pending_game, s.current_week, s.current_date with
    | some pg, some w, some nd =>
      if w == 0 then .ok s
      else
        match parse_time_et_to_ct nd ln with
        | .error e => .error e
        | .ok iso =>
          let c := (dget s.game_counter w).getD 0 + 1
          let gid := "W" ++ toString w ++ "G" ++ toString c
          let gs := (dget s.weeks (toString w)).getD []
          .ok { s with
                weeks := dset s.weeks (toString w)
                  (gs ++ [⟨gid, pg.away, pg.home, iso, pg.note⟩]),
                game_counter := dset s.game_counter w c,
                pending_game := none }
    | _, _, _ => .ok s
  else .ok s

/-- The `pending_game` dict built from a matchup match: strip the team
captures, default a missing note to the empty string, set `neutral` iff
the lowercased separator is `vs`. -/
def pendingOf (caps : Caps) : Pending :=
  { away := pyStrip ((capStr caps 1).getD ""),
    home := pyStrip ((capStr caps 3).getD ""),
    note := match capStr caps 4 with | some t => pyStrip t | none => "",
    neutral := pyLower ((capStr caps 2).getD "") == "vs" }

/-- One iteration of the `for ln in lines` loop of `build_schedule`. -/
def stepLine (s : St) (ln : String) : Except PyErr St :=
  match rmatch weekRX ln with
  | some caps =>
    let w := digitsVal ((capStr caps 1).getD "").data
    .ok { weeks := dset s.weeks (toString w) [],
          current_week := some w,
          current_date := none,
          pending_game := none,
          game_counter := dset s.game_counter w 0 }
  | none =>
    if (rmatch dateRX ln).isSome then
      .ok (match normalize_date_line ln with
           | some nd => { s with current_date := some nd }
           | none => s)
    else
      match rmatch gameRX ln with
      | some caps =>
        if truthyW s.current_week then
          .ok { s with pending_game := some (pendingOf caps) }
        else stepTimes s ln
      | none => stepTimes s ln

/-- The loop of `build_schedule`, from a given state. -/
def runLines (s : St) : List String → Except PyErr St
  | [] => .ok s
  | ln :: rest =>
    match stepLine s ln with
    | .ok s2 => runLines s2 rest
    | .error e => .error e

/-- `build_schedule`, parameterized by the fetched text lines (the network
fetch and markup stripping sit outside the extractor's contract). -/
def build_schedule (lines : List String) : Except PyErr Doc :=
  (runLines initSt lines).map (fun s => { year := 2025, weeks := s.weeks })

/-! ## `get_games_for_week` of `app.py` (dict-shaped `weeks`) -/

/-- The candidate key set `{wk, f"Week {wk}", f"WEEK {wk}", f"week {wk}"}`
built by `get_games_for_week`. -/
def weekKeyForms (week_num : Nat) : List String :=
  [toString week_num, "Week " ++ toString week_num,
   "WEEK " ++ toString week_num, "week " ++ toString week_num]

/-- `get_games_for_week(week_num)` against a loaded `weeks` mapping: scan
the keys in insertion order and return the games stored under the first
key that is one of the candidate forms, `[]` when no key is. -/
def get_games_for_week (weeks : List (String × List Game)) (week_num : Nat) : List Game :=
  match weeks with
  | [] => []
  | p :: rest =>
    if p.1 ∈ weekKeyForms week_num then p.2 else get_games_for_week rest week_num

/-! ## Derived state forms and invariants -/

/-- The key list of an association list. -/
def keys {K V : Type} (m : List (K × V)) : List K := m.map Prod.fst

/-- The captured week number of a week-header line. -/
def weekOf (caps : Caps) : Nat := digitsVal ((capStr caps 1).getD "").data

/-- The state after a finalized game: counter bumped, id assigned, record
appended, pending cleared. -/
def appendGame (s : St) (w : Nat) (pg : Pending) (iso : String) : St :=
  let c := (dget s.game_counter w).getD 0 + 1
  { s with
    weeks := dset s.weeks (toString w)
      (((dget s.weeks (toString w)).getD []) ++
        [⟨"W" ++ toString w ++ "G" ++ toString c, pg.away, pg.home, iso, pg.note⟩]),
    game_counter := dset s.game_counter w c,
    pending_game := none }

/-- From position `n` on, a week-`w` list carries the ids `W<w>G<n+1>`,
`W<w>G<n+2>`, … in order. -/
def idsOkFrom (w : Nat) : Nat → List Game → Prop
  | _, [] => True
  | n, g :: rest =>
    g.id = "W" ++ toString w ++ "G" ++ toString (n + 1) ∧ idsOkFrom w (n + 1) rest

/-- Invariant of every state the loop reaches: week-list keys are unique;
every stored week list sits under the key `str(w)` of a week `w` whose
counter equals the list length and numbers its games `W<w>G1`, `W<w>G2`, …;
the current week, when set, has a stored list and counter; and a pending
game exists only under a truthy current week. -/
def LoopInv (s : St) : Prop :=
  (keys s.weeks).Nodup ∧
  (∀ p ∈ s.weeks, ∃ w : Nat, p.1 = toString w ∧
      dget s.game_counter w = some p.2.length ∧ idsOkFrom w 0 p.2) ∧
  (∀ w : Nat, s.current_week = some w →
      ∃ gs, dget s.weeks (toString w) = some gs ∧
        dget s.game_counter w = some gs.length ∧ idsOkFrom w 0 gs) ∧
  (∀ pg, s.pending_game = some pg → ∃ w : Nat, s.current_week = some w ∧ w ≠ 0)

/-! ## Scenario data -/

/-- The basic-game scenario lines. -/
def basicLines : List String :=
  ["WEEK 1", "Thursday, Sept. 4, 2025", "Dallas Cowboys at Philadelphia Eagles",
   "8:20p (ET)", "8:20p"]

/-- The record the basic-game scenario emits. -/
def basicGame : Game :=
  ⟨"W1G1", "Dallas Cowboys", "Philadelphia Eagles", "2025-09-04T19:20:00", ""⟩

/-- The reachable state after the header, date and matchup of the basic
scenario: week, date and pending game all set. -/
def readySt : St :=
  ⟨[("1", [])], some 1, some (2025, 9, 4),
   some ⟨"Dallas Cowboys", "Philadelphia Eagles", "", false⟩, [(1, 0)]⟩

/-- The reachable state after just "WEEK 1": no date, no pending game. -/
def week1St : St := ⟨[("1", [])], some 1, none, none, [(1, 0)]⟩

/-- Week 1 with three complete games, then a week-2 header and one game. -/
def resetLines : List String :=
  ["WEEK 1", "Thursday, Sept. 4, 2025",
   "Dallas Cowboys at Philadelphia Eagles", "8:20p (ET)", "8:20p",
   "Kansas City Chiefs vs Los Angeles Chargers (Sao Paulo)", "8:00p (BRT)", "7:00p",
   "Sunday, Sept. 7, 2025", "Tampa Bay Buccaneers at Atlanta Falcons", "1:00p (ET)", "1:00p",
   "WEEK 2", "Sunday, Sept. 14, 2025", "Buffalo Bills at New York Jets",
   "8:20p (ET)", "8:20p"]

/-- A game list stored under an oddly-cased week key. -/
def oddGame : Game := ⟨"W3G1", "Alpha", "Beta", "", ""⟩

/-- The state a week-header line installs (the header branch of the
loop). -/
def headerSt (s : St) (w : Nat) : St :=
  ⟨dset s.weeks (toString w) [], some w, none, none, dset s.game_counter w 0⟩

/-- Simulation relation for the week-restart argument: two loop states
agreeing on the control components (current week, date, pending game), on
the week-`w` list and counter, and on the list and counter of whatever
week is current. -/
def SimRel (w : Nat) (s t : St) : Prop :=
  s.current_week = t.current_week ∧
  s.current_date = t.current_date ∧
  s.pending_game = t.pending_game ∧
  dget s.weeks (toString w) = dget t.weeks (toString w) ∧
  dget s.game_counter w = dget t.game_counter w ∧
  (∀ u : Nat, s.current_week = some u →
      dget s.weeks (toString u) = dget t.weeks (toString u) ∧
      dget s.game_counter u = dget t.game_counter u)

/-- A run whose week-1 header occurs twice: a week-2 game, a first week-1
game, then a repeated `WEEK 1` header and a second week-1 game. -/
def dupPre : List String :=
  ["WEEK 2", "Sunday, Sept. 14, 2025", "Buffalo Bills at New York Jets", "8:20p",
   "WEEK 1", "Thursday, Sept. 4, 2025", "Dallas Cowboys at Philadelphia Eagles", "8:20p"]

/-- The lines after the repeated week-1 header. -/
def dupSuf : List String :=
  ["Sunday, Sept. 7, 2025", "Tampa Bay Buccaneers at Atlanta Falcons", "1:00p"]

/-- The record the suffix game produces. -/
def dupGame : Game :=
  ⟨"W1G1", "Tampa Bay Buccaneers", "Atlanta Falcons", "2025-09-07T12:00:00", ""⟩

/-- The document of the full duplicated run: the first week-1 game is
gone, only the post-header game remains under "1". -/
def dupDoc : Doc :=
  ⟨2025, [("2", [⟨"W2G1", "Buffalo Bills", "New York Jets", "2025-09-14T19:20:00", ""⟩]),
          ("1", [dupGame])]⟩

/-- The document of the run started at the repeated header. -/
def dupDoc2 : Doc := ⟨2025, [("1", [dupGame])]⟩

/-! ## Evaluation sanity checks -/

example : rmatch bareRX "8:20p" = some [] := rfl

example : rmatch bareRX "8:99p" = some [] := rfl

example : rmatch bareRX "8:20p (ET)" = none := rfl

example : rmatch zoneRX "8:20p (ET)" = some [] := rfl

example : capStr ((rmatch weekRX "WEEK 12").getD []) 1 = some "12" := rfl

example : rmatch weekRX "Week 3" ≠ none := by decide

example : (rmatch dateRX "Thursday, Sept. 4, 2025").isSome = true := rfl

example : (rmatch dateRX "SUNDAY, Foo 7, 2025").isSome = true := rfl

example : (rmatch dateRX "Thursday, Sept. 4, 2024").isSome = false := rfl

example :
    (rmatch gameRX "Dallas Cowboys at Philadelphia Eagles").map (fun c => capStr c 1) =
      some (some "Dallas Cowboys") := rfl

example :
    (rmatch gameRX "Kansas City Chiefs vs Los Angeles Chargers (Sao Paulo)").map
      (fun c => (capStr c 2, capStr c 3, capStr c 4)) =
    some (some "vs", some "Los Angeles Chargers", some "Sao Paulo") := rfl

example : normalize_date_line "Thursday, Sept. 4, 2025" = some (2025, 9, 4) := rfl

example : normalize_date_line "Sunday, Foo 7, 2025" = none := rfl

example : parse_time_et_to_ct (2025, 9, 4) "8:20p" = .ok "2025-09-04T19:20:00" := rfl

example : parse_time_et_to_ct (2025, 9, 4) "8:15 PM" = .ok "2025-09-04T19:15:00" := rfl

example : parse_time_et_to_ct (2025, 9, 4) "noon" = .ok "" := rfl

example : parse_time_et_to_ct (2025, 9, 4) "8:99p" = .error .valueError := rfl

example : parse_time_et_to_ct (2025, 1, 4) "8:20p" = .ok "2025-01-04T19:20:00" := rfl

/-! ## Dictionary lemmas -/

section DictLemmas

variable {K V : Type} [DecidableEq K]

theorem dget_dset_self (m : List (K × V)) (k : K) (v : V) :
    dget (dset m k v) k = some v := by
  induction m with
  | nil => simp [dset, dget]
  | cons p rest ih =>
    by_cases hp : p.1 = k
    · simp [dset, dget, hp]
    · simp [dset, dget, hp, ih]

theorem dget_dset_ne (m : List (K × V)) (k k2 : K) (v : V) (hne : k2 ≠ k) :
    dget (dset m k v) k2 = dget m k2 := by
  have hkk : ¬ k = k2 := fun h => hne h.symm
  induction m with
  | nil => simp [dset, dget, hkk]
  | cons p rest ih =>
    by_cases hp : p.1 = k
    · simp [dset, dget, hp, hkk]
    · simp [dset, dget, hp, ih]

theorem keys_dset (m : List (K × V)) (k : K) (v : V) :
    keys (dset m k v) = if k ∈ keys m then keys m else keys m ++ [k] := by
  induction m with
  | nil => simp [dset, keys]
  | cons p rest ih =>
    by_cases hp : p.1 = k
    · rw [dset, if_pos hp]
      have hm : k ∈ keys (p :: rest) := by
        rw [keys, List.map_cons, hp]
        exact List.mem_cons_self _ _
      rw [if_pos hm, keys, keys, List.map_cons, List.map_cons, hp]
    · rw [dset, if_neg hp, keys, List.map_cons]
      have hstep : List.map Prod.fst (dset rest k v) = keys (dset rest k v) := rfl
      rw [hstep, ih]
      by_cases hk : k ∈ keys rest
      · rw [if_pos hk]
        have hm2 : k ∈ keys (p :: rest) := by
          rw [keys, List.map_cons]
          exact List.mem_cons_of_mem _ hk
        rw [if_pos hm2]
        rfl
      · rw [if_neg hk]
        have hnm : ¬ k ∈ keys (p :: rest) := by
          rw [keys, List.map_cons]
          intro hc
          rcases List.mem_cons.mp hc with hc | hc
          · exact hp hc.symm
          · exact hk hc
        rw [if_neg hnm]
        rfl

theorem keysNodup_dset (m : List (K × V)) (k : K) (v : V)
    (h : (keys m).Nodup) : (keys (dset m k v)).Nodup := by
  rw [keys_dset]
  by_cases hk : k ∈ keys m
  · simpa [hk] using h
  · simp only [hk, if_neg, ite_false]
    rw [List.nodup_append]
    exact ⟨h, List.nodup_singleton _, fun a ha hb => hk ((List.mem_singleton.mp hb) ▸ ha)⟩

theorem mem_dset {m : List (K × V)} {k : K} {v : V} {p : K × V}
    (hnd : (keys m).Nodup) (hp : p ∈ dset m k v) :
    p = (k, v) ∨ (p ∈ m ∧ p.1 ≠ k) := by
  induction m with
  | nil =>
    simp [dset] at hp
    left
    exact hp
  | cons q rest ih =>
    have hnd2 : (keys rest).Nodup := (List.nodup_cons.mp (by simpa [keys] using hnd)).2
    by_cases hq : q.1 = k
    · rw [dset, if_pos hq] at hp
      rcases List.mem_cons.mp hp with h | h
      · exact Or.inl h
      · refine Or.inr ⟨List.mem_cons_of_mem _ h, fun hc => ?_⟩
        have hm : p.1 ∈ keys rest := List.mem_map_of_mem Prod.fst h
        rw [hc, ← hq] at hm
        exact (List.nodup_cons.mp (by simpa [keys] using hnd)).1 hm
    · rw [dset, if_neg hq] at hp
      rcases List.mem_cons.mp hp with h | h
      · exact Or.inr ⟨by rw [h]; exact List.mem_cons_self _ _, by rw [h]; exact hq⟩
      · rcases ih hnd2 h with h1 | h1
        · exact Or.inl h1
        · exact Or.inr ⟨List.mem_cons_of_mem _ h1.1, h1.2⟩

theorem dget_mem {m : List (K × V)} {k : K} {v : V}
    (h : dget m k = some v) : (k, v) ∈ m := by
  induction m with
  | nil => simp [dget] at h
  | cons p rest ih =>
    by_cases hp : p.1 = k
    · rw [dget, if_pos hp] at h
      have hv : v = p.2 := (Option.some.injEq _ _ ▸ h).symm
      have : (k, v) = p := by rw [← hp, hv]
      rw [this]
      exact List.mem_cons_self _ _
    · rw [dget, if_neg hp] at h
      exact List.mem_cons_of_mem _ (ih h)

end DictLemmas

/-! ## Loop lemmas -/

theorem runLines_append (s : St) (l1 l2 : List String) :
    runLines s (l1 ++ l2) =
      match runLines s l1 with
      | .ok s2 => runLines s2 l2
      | .error e => .error e := by
  induction l1 generalizing s with
  | nil => simp [runLines]
  | cons ln rest ih =>
    simp only [List.cons_append, runLines]
    cases stepLine s ln with
    | ok s2 => exact ih s2
    | error e => rfl

theorem stepLine_week (s : St) (ln : String) (caps : Caps)
    (hw : rmatch weekRX ln = some caps) :
    stepLine s ln = .ok
      { weeks := dset s.weeks (toString (weekOf caps)) [],
        current_week := some (weekOf caps),
        current_date := none,
        pending_game := none,
        game_counter := dset s.game_counter (weekOf caps) 0 } := by
  simp [stepLine, hw, weekOf]

theorem stepLine_date (s : St) (ln : String)
    (hw : rmatch weekRX ln = none) (hd : (rmatch dateRX ln).isSome = true) :
    stepLine s ln = .ok
      (match normalize_date_line ln with
       | some nd => { s with current_date := some nd }
       | none => s) := by
  simp [stepLine, hw, hd]

theorem stepLine_game (s : St) (ln : String) (caps : Caps)
    (hw : rmatch weekRX ln = none) (hd : (rmatch dateRX ln).isSome = false)
    (hg : rmatch gameRX ln = some caps) (ht : truthyW s.current_week = true) :
    stepLine s ln = .ok { s with pending_game := some (pendingOf caps) } := by
  simp [stepLine, hw, hd, hg, ht]

theorem stepLine_times_of_no_game (s : St) (ln : String)
    (hw : rmatch weekRX ln = none) (hd : (rmatch dateRX ln).isSome = false)
    (hg : rmatch gameRX ln = none) :
    stepLine s ln = stepTimes s ln := by
  simp [stepLine, hw, hd, hg]

theorem stepLine_times_of_falsy_week (s : St) (ln : String) (caps : Caps)
    (hw : rmatch weekRX ln = none) (hd : (rmatch dateRX ln).isSome = false)
    (hg : rmatch gameRX ln = some caps) (ht : truthyW s.current_week = false) :
    stepLine s ln = stepTimes s ln := by
  simp [stepLine, hw, hd, hg, ht]

theorem stepTimes_zone (s : St) (ln : String)
    (hz : (rmatch zoneRX ln).isSome = true) : stepTimes s ln = .ok s := by
  simp [stepTimes, hz]

theorem stepTimes_other (s : St) (ln : String)
    (hz : (rmatch zoneRX ln).isSome = false)
    (hb : (rmatch bareRX ln).isSome = false) : stepTimes s ln = .ok s := by
  simp [stepTimes, hz, hb]

theorem stepTimes_bare_missing (s : St) (ln : String)
    (hz : (rmatch zoneRX ln).isSome = false)
    (hb : (rmatch bareRX ln).isSome = true)
    (hmiss : s.pending_game = none ∨ s.current_week = none ∨
      s.current_date = none ∨ s.current_week = some 0) :
    stepTimes s ln = .ok s := by
  simp only [stepTimes, hz, hb, Bool.false_eq_true, if_false, if_true]
  rcases hmiss with h | h | h | h
  · rw [h]
  · rw [h]
    cases s.pending_game <;> cases s.current_date <;> rfl
  · rw [h]
    cases s.pending_game <;> cases s.current_week <;> rfl
  · rw [h]
    cases s.pending_game <;> cases s.current_date <;> rfl

theorem stepTimes_bare_fire (s : St) (ln : String) (pg : Pending) (w : Nat)
    (nd : Nat × Nat × Nat)
    (hz : (rmatch zoneRX ln).isSome = false)
    (hb : (rmatch bareRX ln).isSome = true)
    (hp : s.pending_game = some pg) (hwk : s.current_week = some w)
    (hw0 : w ≠ 0) (hd : s.current_date = some nd) :
    stepTimes s ln =
      match parse_time_et_to_ct nd ln with
      | .error e => .error e
      | .ok iso => .ok (appendGame s w pg iso) := by
  simp only [stepTimes, hz, hb, Bool.false_eq_true, if_false, if_true, hp, hwk, hd]
  have : (w == 0) = false := by simpa using hw0
  rw [this]
  simp only [Bool.false_eq_true, if_false]
  cases parse_time_et_to_ct nd ln <;> simp [appendGame, hwk, hd]

/-! ## The reachable-state invariant -/

theorem idsOkFrom_append (w : Nat) (gs : List Game) (g : Game) (n : Nat)
    (h : idsOkFrom w n gs)
    (hid : g.id = "W" ++ toString w ++ "G" ++ toString (n + gs.length + 1)) :
    idsOkFrom w n (gs ++ [g]) := by
  induction gs generalizing n with
  | nil => exact ⟨by simpa using hid, trivial⟩
  | cons a rest ih =>
    refine ⟨h.1, ih (n + 1) h.2 ?_⟩
    rw [hid]
    have : n + 1 + rest.length + 1 = n + (a :: rest).length + 1 := by
      simp [List.length_cons]
      omega
    rw [this]

theorem initSt_inv : LoopInv initSt := by
  refine ⟨?_, ?_, ?_, ?_⟩
  · simp [initSt, keys]
  · intro p hp
    simp [initSt] at hp
  · intro w hw
    simp [initSt] at hw
  · intro pg hpg
    simp [initSt] at hpg

theorem weekHeader_inv (s : St) (w : Nat) (hI : LoopInv s) :
    LoopInv { weeks := dset s.weeks (toString w) [],
              current_week := some w,
              current_date := none,
              pending_game := none,
              game_counter := dset s.game_counter w 0 } := by
  obtain ⟨h0, h1, h2, h3⟩ := hI
  refine ⟨keysNodup_dset _ _ _ h0, ?_, ?_, ?_⟩
  · intro p hp
    rcases mem_dset h0 hp with rfl | ⟨hpm, hpk⟩
    · exact ⟨w, rfl, by rw [dget_dset_self]; rfl, trivial⟩
    · obtain ⟨w0, hk, hc, hids⟩ := h1 p hpm
      refine ⟨w0, hk, ?_, hids⟩
      rw [dget_dset_ne _ _ _ _ (fun hww => hpk (by rw [hk, hww]))]
      exact hc
  · intro w2 hw2
    obtain rfl : w = w2 := by injection hw2
    exact ⟨[], by rw [dget_dset_self], by rw [dget_dset_self]; rfl, trivial⟩
  · intro pg hpg
    simp at hpg

theorem appendGame_inv (s : St) (w : Nat) (pg : Pending) (iso : String)
    (hI : LoopInv s) (hwk : s.current_week = some w) :
    LoopInv (appendGame s w pg iso) := by
  obtain ⟨h0, h1, h2, h3⟩ := hI
  obtain ⟨gs, hgs, hc, hids⟩ := h2 w hwk
  have hcval : (dget s.game_counter w).getD 0 = gs.length := by rw [hc]; rfl
  have hgsval : (dget s.weeks (toString w)).getD [] = gs := by rw [hgs]; rfl
  have hid1 : ("W" ++ toString w ++ "G" ++ toString (gs.length + 1)) =
      "W" ++ toString w ++ "G" ++ toString (0 + gs.length + 1) := by
    rw [Nat.zero_add]
  simp only [appendGame, hcval, hgsval]
  refine ⟨keysNodup_dset _ _ _ h0, ?_, ?_, ?_⟩
  · intro p hp
    rcases mem_dset h0 hp with rfl | ⟨hpm, hpk⟩
    · refine ⟨w, rfl, ?_, ?_⟩
      · rw [dget_dset_self]
        simp [List.length_append]
      · exact idsOkFrom_append w gs _ 0 hids hid1
    · obtain ⟨w0, hk, hc0, hids0⟩ := h1 p hpm
      refine ⟨w0, hk, ?_, hids0⟩
      rw [dget_dset_ne _ _ _ _ (fun hww => hpk (by rw [hk, hww]))]
      exact hc0
  · intro w2 hw2
    have : s.current_week = some w2 := hw2
    rw [hwk] at this
    obtain rfl : w = w2 := by injection this
    refine ⟨_, dget_dset_self _ _ _, ?_, idsOkFrom_append w gs _ 0 hids hid1⟩
    rw [dget_dset_self]
    simp [List.length_append]
  · intro pg2 hpg2
    simp at hpg2

theorem stepTimes_inv (s : St) (ln : String) (s2 : St)
    (h : stepTimes s ln = .ok s2) (hI : LoopInv s) : LoopInv s2 := by
  by_cases hz : (rmatch zoneRX ln).isSome = true
  · rw [stepTimes_zone s ln hz] at h
    obtain rfl : s = s2 := by injection h
    exact hI
  · have hz2 : (rmatch zoneRX ln).isSome = false := by simpa using hz
    by_cases hb : (rmatch bareRX ln).isSome = true
    · cases hpg : s.pending_game with
      | none =>
        rw [stepTimes_bare_missing s ln hz2 hb (Or.inl hpg)] at h
        obtain rfl : s = s2 := by injection h
        exact hI
      | some pg =>
        cases hcw : s.current_week with
        | none =>
          rw [stepTimes_bare_missing s ln hz2 hb (Or.inr (Or.inl hcw))] at h
          obtain rfl : s = s2 := by injection h
          exact hI
        | some w =>
          by_cases hw0 : w = 0
          · subst hw0
            rw [stepTimes_bare_missing s ln hz2 hb (Or.inr (Or.inr (Or.inr hcw)))] at h
            obtain rfl : s = s2 := by injection h
            exact hI
          · cases hcd : s.current_date with
            | none =>
              rw [stepTimes_bare_missing s ln hz2 hb (Or.inr (Or.inr (Or.inl hcd)))] at h
              obtain rfl : s = s2 := by injection h
              exact hI
            | some nd =>
              rw [stepTimes_bare_fire s ln pg w nd hz2 hb hpg hcw hw0 hcd] at h
              cases hpar : parse_time_et_to_ct nd ln with
              | error e =>
                rw [hpar] at h
                cases h
              | ok iso =>
                rw [hpar] at h
                obtain rfl : appendGame s w pg iso = s2 := by injection h
                exact appendGame_inv s w pg iso hI hcw
    · have hb2 : (rmatch bareRX ln).isSome = false := by simpa using hb
      rw [stepTimes_other s ln hz2 hb2] at h
      obtain rfl : s = s2 := by injection h
      exact hI

theorem stepLine_inv (s : St) (ln : String) (s2 : St)
    (h : stepLine s ln = .ok s2) (hI : LoopInv s) : LoopInv s2 := by
  cases hw : rmatch weekRX ln with
  | some caps =>
    rw [stepLine_week s ln caps hw] at h
    obtain rfl := (Except.ok.injEq _ _).mp h
    exact weekHeader_inv s (weekOf caps) hI
  | none =>
    by_cases hd : (rmatch dateRX ln).isSome = true
    · rw [stepLine_date s ln hw hd] at h
      cases hnd : normalize_date_line ln with
      | some nd =>
        rw [hnd] at h
        obtain rfl := (Except.ok.injEq _ _).mp h
        exact ⟨hI.1, hI.2.1, hI.2.2.1, hI.2.2.2⟩
      | none =>
        rw [hnd] at h
        obtain rfl : s = s2 := by injection h
        exact hI
    · have hd2 : (rmatch dateRX ln).isSome = false := by simpa using hd
      cases hg : rmatch gameRX ln with
      | some caps =>
        by_cases ht : truthyW s.current_week = true
        · rw [stepLine_game s ln caps hw hd2 hg ht] at h
          obtain rfl := (Except.ok.injEq _ _).mp h
          refine ⟨hI.1, hI.2.1, hI.2.2.1, ?_⟩
          intro pg2 hpg2
          cases hcw : s.current_week with
          | none => rw [hcw] at ht; simp [truthyW] at ht
          | some w =>
            refine ⟨w, rfl, ?_⟩
            rw [hcw] at ht
            simpa [truthyW] using ht
        · have ht2 : truthyW s.current_week = false := by simpa using ht
          rw [stepLine_times_of_falsy_week s ln caps hw hd2 hg ht2] at h
          exact stepTimes_inv s ln s2 h hI
      | none =>
        rw [stepLine_times_of_no_game s ln hw hd2 hg] at h
        exact stepTimes_inv s ln s2 h hI

theorem runLines_inv (s s2 : St) (lines : List String)
    (h : runLines s lines = .ok s2) (hI : LoopInv s) : LoopInv s2 := by
  induction lines generalizing s with
  | nil =>
    obtain rfl : s = s2 := by injection h
    exact hI
  | cons ln rest ih =>
    rw [runLines] at h
    cases hstep : stepLine s ln with
    | error e =>
      rw [hstep] at h
      cases h
    | ok s3 =>
      rw [hstep] at h
      exact ih s3 h (stepLine_inv s ln s3 hstep hI)

/-! ## Claims -/

/-- C1 (the code drops the field the claim promises): on the basic-game
scenario the extractor emits the expected record values, and the pending
buffer did compute `neutral = false` from the separator `at` — but the
appended dict carries no `neutral` key at all; its keys are exactly `id`,
`away`, `home`, `kickoff_local`, `note`. -/
theorem c1_record_has_no_neutral_key :
    build_schedule basicLines = .ok ⟨2025, [("1", [basicGame])]⟩ ∧
    runLines initSt (basicLines.take 3) = .ok readySt ∧
    readySt.pending_game =
      some ⟨"Dallas Cowboys", "Philadelphia Eagles", "", false⟩ ∧
    dget basicGame.toAssoc "neutral" = none ∧
    keys basicGame.toAssoc = ["id", "away", "home", "kickoff_local", "note"] :=
  ⟨rfl, rfl, rfl, rfl, rfl⟩

/-- C6: a week-header line, from any state whatever, sets the current
week, installs a fresh empty list and a zero counter for it, and clears
the date and the pending game; in the reset scenario week 1 emits
`W1G1..W1G3` and the game after the `WEEK 2` header gets `W2G1`. -/
theorem c6_week_header_resets :
    (∀ (s : St) (ln : String) (caps : Caps), rmatch weekRX ln = some caps →
        stepLine s ln = .ok
          { weeks := dset s.weeks (toString (weekOf caps)) [],
            current_week := some (weekOf caps),
            current_date := none,
            pending_game := none,
            game_counter := dset s.game_counter (weekOf caps) 0 }) ∧
    (build_schedule resetLines).map
        (fun doc => (dget doc.weeks "1").map (List.map Game.id)) =
      .ok (some ["W1G1", "W1G2", "W1G3"]) ∧
    (build_schedule resetLines).map
        (fun doc => (dget doc.weeks "2").map (List.map Game.id)) =
      .ok (some ["W2G1"]) :=
  ⟨fun s ln caps h => stepLine_week s ln caps h, rfl, rfl⟩

/-- Witness for C6: the reset applied in one concrete state. -/
theorem c6_week_header_resets_witness :
    stepLine readySt "WEEK 2" =
      .ok ⟨[("1", []), ("2", [])], some 2, none, none, [(1, 0), (2, 0)]⟩ := by
  rw [c6_week_header_resets.1 readySt "WEEK 2" [(1, ['2'])] rfl]
  rfl

/-- C8: a date-header line replaces `current_date` exactly when the text
parses to a `(year, month, day)` triple; when parsing fails the entire
state is returned unchanged and no error is raised. -/
theorem c8_date_header_frame (s : St) (ln : String)
    (hw : rmatch weekRX ln = none) (hd : (rmatch dateRX ln).isSome = true) :
    (∀ nd, normalize_date_line ln = some nd →
        stepLine s ln = .ok { s with current_date := some nd }) ∧
    (normalize_date_line ln = none → stepLine s ln = .ok s) := by
  constructor
  · intro nd hnd
    rw [stepLine_date s ln hw hd, hnd]
  · intro hnd
    rw [stepLine_date s ln hw hd, hnd]

/-- Witness for C8: an unparseable month leaves the previously set date
(and everything else) in place. -/
theorem c8_date_header_frame_witness :
    stepLine readySt "Sunday, Foo 7, 2025" = .ok readySt :=
  (c8_date_header_frame readySt "Sunday, Foo 7, 2025" rfl rfl).2 rfl

/-- C9 fails as stated: `"wEek 3"` is `"Week 3"` in one of the sixteen
letter-case combinations, yet the lookup misses it and falls back to `[]`
instead of the stored list. -/
theorem c9_counterexample :
    get_games_for_week [("wEek 3", [oddGame])] 3 = [] ∧
    [oddGame] ≠ ([] : List Game) :=
  ⟨rfl, by decide⟩

/-- C9 amended: the accepted key forms are exactly `str(n)`, `"Week n"`,
`"WEEK n"` and `"week n"`; the lookup returns the list stored under the
FIRST accepted key in insertion order (every key before it is
unaccepted), and `[]` when no key is accepted. -/
theorem c9_amended_lookup (weeks : List (String × List Game)) (n : Nat) :
    (∃ before p rest, weeks = before ++ p :: rest ∧
        (∀ q ∈ before, q.1 ∉ weekKeyForms n) ∧ p.1 ∈ weekKeyForms n ∧
        get_games_for_week weeks n = p.2) ∨
    ((∀ p ∈ weeks, p.1 ∉ weekKeyForms n) ∧ get_games_for_week weeks n = []) := by
  induction weeks with
  | nil => exact Or.inr ⟨by simp, rfl⟩
  | cons p rest ih =>
    by_cases hp : p.1 ∈ weekKeyForms n
    · left
      exact ⟨[], p, rest, rfl, by simp, hp, by rw [get_games_for_week, if_pos hp]⟩
    · have hrest : get_games_for_week (p :: rest) n = get_games_for_week rest n := by
        rw [get_games_for_week, if_neg hp]
      rcases ih with ⟨before, q, rest2, heq, hbef, hqf, hqv⟩ | ⟨hall, hv⟩
      · left
        refine ⟨p :: before, q, rest2, by rw [heq]; rfl, ?_, hqf, ?_⟩
        · intro q2 hq2
          rcases List.mem_cons.mp hq2 with rfl | hq3
          · exact hp
          · exact hbef q2 hq3
        · rw [hrest]
          exact hqv
      · refine Or.inr ⟨?_, by rw [hrest]; exact hv⟩
        intro q hq
        rcases List.mem_cons.mp hq with rfl | hq2
        · exact hp
        · exact hall q hq2

theorem idsOkFrom_map (w : Nat) (gs : List Game) (n : Nat) (h : idsOkFrom w n gs) :
    gs.map Game.id =
      (List.range gs.length).map
        (fun i => "W" ++ toString w ++ "G" ++ toString (n + i + 1)) := by
  induction gs generalizing n with
  | nil => rfl
  | cons g rest ih =>
    simp only [List.map_cons, List.length_cons, List.range_succ_eq_map, List.map_map]
    congr 1
    · exact h.1
    · rw [ih (n + 1) h.2]
      apply List.map_congr_left
      intro i _
      simp only [Function.comp_apply]
      have harith : n + 1 + i + 1 = n + (i + 1) + 1 := by omega
      rw [harith]

/-- C2: in every returned document, each stored week list — keyed by the
week string — carries exactly the ids `W<key>G1`, `W<key>G2`, … in
emission order, so ids are unique within the week, start at 1 and
increase by exactly 1. -/
theorem c2_ids_exact (lines : List String) (doc : Doc)
    (h : build_schedule lines = .ok doc) :
    ∀ p ∈ doc.weeks, p.2.map Game.id =
      (List.range p.2.length).map (fun i => "W" ++ p.1 ++ "G" ++ toString (i + 1)) := by
  unfold build_schedule at h
  cases hrun : runLines initSt lines with
  | error e =>
    rw [hrun] at h
    cases h
  | ok sfin =>
    rw [hrun] at h
    have hdoc : Doc.mk 2025 sfin.weeks = doc := by simpa [Except.map] using h
    subst hdoc
    intro p hp
    have hInv := runLines_inv initSt sfin lines hrun initSt_inv
    obtain ⟨w, hk, hc, hids⟩ := hInv.2.1 p hp
    rw [hk, idsOkFrom_map w p.2 0 hids]
    apply List.map_congr_left
    intro i _
    have harith : 0 + i + 1 = i + 1 := by omega
    rw [harith]

/-- Witness for C2: the basic scenario's single stored list. -/
theorem c2_ids_exact_witness :
    [basicGame].map Game.id =
      (List.range 1).map (fun i => "W" ++ "1" ++ "G" ++ toString (i + 1)) :=
  c2_ids_exact basicLines ⟨2025, [("1", [basicGame])]⟩ rfl ("1", [basicGame])
    (List.mem_cons_self _ _)

/-- C3 fails as stated: `8:99p` is classified bare-time; in the reachable
state `readySt` the week, the date and the pending game are all set, yet
no record is appended — the line raises `ValueError` (minute 99) out of
the `datetime` constructor and aborts the run. -/
theorem c3_counterexample :
    (rmatch weekRX "8:99p" = none ∧ (rmatch dateRX "8:99p").isSome = false ∧
      rmatch gameRX "8:99p" = none ∧ (rmatch zoneRX "8:99p").isSome = false ∧
      (rmatch bareRX "8:99p").isSome = true) ∧
    runLines initSt (basicLines.take 3) = .ok readySt ∧
    readySt.pending_game.isSome = true ∧
    readySt.current_week.isSome = true ∧
    readySt.current_date.isSome = true ∧
    stepLine readySt "8:99p" = .error .valueError :=
  ⟨⟨rfl, rfl, rfl, rfl, rfl⟩, rfl, rfl, rfl, rfl, rfl⟩

/-- C3 amended: for every bare-time-classified line in a reachable state,
a record is appended iff the week, the date and the pending game are all
set and the normalizer returns normally; with any of the three missing the
line is a silent no-op that changes nothing; with all three set a
normalizer exception propagates (and nothing is appended). -/
theorem c3_bare_time_guard (pre : List String) (s : St) (ln : String)
    (hrun : runLines initSt pre = .ok s)
    (hw : rmatch weekRX ln = none) (hd : (rmatch dateRX ln).isSome = false)
    (hg : rmatch gameRX ln = none) (hz : (rmatch zoneRX ln).isSome = false)
    (hb : (rmatch bareRX ln).isSome = true) :
    ((s.pending_game = none ∨ s.current_week = none ∨ s.current_date = none) →
        stepLine s ln = .ok s) ∧
    (∀ pg w nd, s.pending_game = some pg → s.current_week = some w →
        s.current_date = some nd →
        stepLine s ln =
          match parse_time_et_to_ct nd ln with
          | .error e => .error e
          | .ok iso => .ok (appendGame s w pg iso)) := by
  have hstep : stepLine s ln = stepTimes s ln := stepLine_times_of_no_game s ln hw hd hg
  constructor
  · intro hmiss
    rw [hstep]
    apply stepTimes_bare_missing s ln hz hb
    rcases hmiss with h | h | h
    · exact Or.inl h
    · exact Or.inr (Or.inl h)
    · exact Or.inr (Or.inr (Or.inl h))
  · intro pg w nd hp hwk hcd
    have hInv := runLines_inv initSt s pre hrun initSt_inv
    obtain ⟨w2, hw2, hw0⟩ := hInv.2.2.2 pg hp
    rw [hwk] at hw2
    obtain rfl : w = w2 := by injection hw2
    rw [hstep]
    exact stepTimes_bare_fire s ln pg w nd hz hb hp hwk hw0 hcd

/-- Witness for C3: with no current date the bare-time line is dropped
silently and the state is untouched. -/
theorem c3_bare_time_guard_witness :
    stepLine week1St "8:20p" = .ok week1St :=
  (c3_bare_time_guard ["WEEK 1"] week1St "8:20p" rfl rfl rfl rfl rfl rfl).1
    (Or.inr (Or.inr rfl))

/-- C4: with week, date and pending all set, a bare-time line finalizes
the game with whatever string the normalizer returned — the empty string
included: the counter advances, the id `W<w>G<counter>` is assigned, the
record's `kickoff_local` is exactly the normalizer's output, and the
pending buffer is cleared; an empty kickoff never drops the game. -/
theorem c4_finalized_with_normalizer_output (pre : List String) (s : St)
    (ln : String) (pg : Pending) (w : Nat) (nd : Nat × Nat × Nat) (iso : String)
    (hrun : runLines initSt pre = .ok s)
    (hw : rmatch weekRX ln = none) (hd : (rmatch dateRX ln).isSome = false)
    (hg : rmatch gameRX ln = none) (hz : (rmatch zoneRX ln).isSome = false)
    (hb : (rmatch bareRX ln).isSome = true)
    (hp : s.pending_game = some pg) (hwk : s.current_week = some w)
    (hcd : s.current_date = some nd)
    (hparse : parse_time_et_to_ct nd ln = .ok iso) :
    stepLine s ln = .ok (appendGame s w pg iso) ∧
    (appendGame s w pg iso).pending_game = none ∧
    dget (appendGame s w pg iso).game_counter w =
      some ((dget s.game_counter w).getD 0 + 1) ∧
    dget (appendGame s w pg iso).weeks (toString w) =
      some ((dget s.weeks (toString w)).getD [] ++
        [⟨"W" ++ toString w ++ "G" ++ toString ((dget s.game_counter w).getD 0 + 1),
          pg.away, pg.home, iso, pg.note⟩]) := by
  have hInv := runLines_inv initSt s pre hrun initSt_inv
  obtain ⟨w2, hw2, hw0⟩ := hInv.2.2.2 pg hp
  rw [hwk] at hw2
  obtain rfl : w = w2 := by injection hw2
  have hstep : stepLine s ln = stepTimes s ln := stepLine_times_of_no_game s ln hw hd hg
  refine ⟨?_, rfl, ?_, ?_⟩
  · rw [hstep, stepTimes_bare_fire s ln pg w nd hz hb hp hwk hw0 hcd, hparse]
  · exact dget_dset_self _ _ _
  · exact dget_dset_self _ _ _

/-- Witness for C4: the basic scenario's append, spelled concretely. -/
theorem c4_finalized_with_normalizer_output_witness :
    stepLine readySt "8:20p" = .ok (appendGame readySt 1
      ⟨"Dallas Cowboys", "Philadelphia Eagles", "", false⟩ "2025-09-04T19:20:00") :=
  (c4_finalized_with_normalizer_output (basicLines.take 3) readySt "8:20p"
    ⟨"Dallas Cowboys", "Philadelphia Eagles", "", false⟩ 1 (2025, 9, 4)
    "2025-09-04T19:20:00" rfl rfl rfl rfl rfl rfl rfl rfl rfl rfl).1

/-! ## Normalizer range lemmas -/

theorem daysInMonth_le31 (y mo : Nat) : daysInMonth y mo ≤ 31 := by
  unfold daysInMonth
  split
  · split <;> omega
  · split <;> omega

theorem days0_le (y mo d : Nat) (hy : y ≤ 9000) (hmo : mo ≤ 12) (hd : d ≤ 31) :
    days0 y mo d ≤ 3287639 := by
  simp only [days0]
  set yy := if mo ≤ 2 then y - 1 else y with hyydef
  set mp := if mo ≤ 2 then mo + 9 else mo - 3 with hmpdef
  have hyy : yy ≤ 9000 := by rw [hyydef]; split <;> omega
  have hmp : mp ≤ 11 := by rw [hmpdef]; split <;> omega
  have h4 : yy / 4 ≤ 2250 := by
    calc yy / 4 ≤ 9000 / 4 := Nat.div_le_div_right hyy
    _ = 2250 := rfl
  have h400 : yy / 400 ≤ 22 := by
    calc yy / 400 ≤ 9000 / 400 := Nat.div_le_div_right hyy
    _ = 22 := rfl
  have h5 : (153 * mp + 2) / 5 ≤ 337 := by
    have hb : 153 * mp + 2 ≤ 1685 := by omega
    calc (153 * mp + 2) / 5 ≤ 1685 / 5 := Nat.div_le_div_right hb
    _ = 337 := rfl
  omega

theorem daysN_ge365 (y mo d : Nat) (hy : 2 ≤ y) (hmo : 1 ≤ mo) :
    365 ≤ daysN y mo d := by
  have h671 : 671 ≤ days0 y mo d := by
    simp only [days0]
    by_cases hmo2 : mo ≤ 2
    · rw [if_pos hmo2, if_pos hmo2]
      have hdivle : (y - 1) / 100 ≤ (y - 1) / 4 :=
        Nat.div_le_div_left (show 4 ≤ 100 by omega) (show 0 < 4 by omega)
      have hdoy : 306 ≤ (153 * (mo + 9) + 2) / 5 := by
        have hb : 1532 ≤ 153 * (mo + 9) + 2 := by omega
        calc (306 : Nat) = 1532 / 5 := rfl
        _ ≤ (153 * (mo + 9) + 2) / 5 := Nat.div_le_div_right hb
      have hy1 : 1 ≤ y - 1 := by omega
      omega
    · rw [if_neg hmo2, if_neg hmo2]
      have hdivle : y / 100 ≤ y / 4 :=
        Nat.div_le_div_left (show 4 ≤ 100 by omega) (show 0 < 4 by omega)
      omega
  unfold daysN
  omega

theorem astimezone_ok (y mo d h mi : Nat)
    (hv : datetimeValid y mo d h mi) (hy2 : 2 ≤ y) (hy9 : y ≤ 9000) :
    ∃ out, astimezoneNYtoChicago y mo d h mi = .ok out := by
  obtain ⟨h1, h2, h3, h4, h5, h6, h7, h8⟩ := hv
  have hd31 : d ≤ 31 := le_trans h6 (daysInMonth_le31 y mo)
  have hdN_le : daysN y mo d ≤ 3287639 := by
    unfold daysN
    have := days0_le y mo d hy9 h4 hd31
    omega
  have hdN_ge := daysN_ge365 y mo d hy2 h3
  have hwall_le : mkMin y mo d h mi ≤ 4734201599 := by
    unfold mkMin
    omega
  have hwall_ge : 525600 ≤ mkMin y mo d h mi := by
    unfold mkMin
    omega
  have hmax : maxMin = 5258964959 := rfl
  unfold astimezoneNYtoChicago
  set utc := mkMin y mo d h mi + (if nyDst y mo d h mi then 240 else 300) with hutc
  have hutc_le : utc ≤ 4734201899 := by rw [hutc]; split <;> omega
  have hutc_ge : 525600 ≤ utc := by rw [hutc]; split <;> omega
  rw [if_neg (by omega : ¬ utc > maxMin)]
  set shift := if chiDstUtc utc then 300 else 360 with hshift
  have hshift_le : shift ≤ 360 := by rw [hshift]; split <;> omega
  rw [if_neg (by omega : ¬ utc < shift)]
  exact ⟨_, rfl⟩

theorem parse_time_of_parsed (y mo d : Nat) (t : String) (hh mm : Nat) (ap : String)
    (ht : timeParse t = some (hh, mm, ap)) :
    parse_time_et_to_ct (y, mo, d) t =
      if datetimeValid y mo d (hh % 12 + if ap == "p" then 12 else 0) mm then
        (astimezoneNYtoChicago y mo d
          (hh % 12 + if ap == "p" then 12 else 0) mm).map isoFmt
      else .error .valueError := by
  unfold parse_time_et_to_ct
  rw [ht]

/-- C5 fails as stated: with the valid date (2025, 9, 4) and the time
text `8:99p` — accepted by the strict `H:MM[ap]` pattern — the normalizer
raises `ValueError` (minute 99) instead of returning a string. -/
theorem c5_counterexample :
    parse_time_et_to_ct (2025, 9, 4) "8:99p" = .error .valueError := rfl

/-- C5 amended: when both parse attempts fail the normalizer returns the
empty string and never raises, for every dateYMD and time text; when a
parse attempt succeeds it returns an ISO string provided the combined
datetime is constructible (valid calendar date, minute below 60) and the
year keeps the westward shift inside the representable range. -/
theorem c5_normalizer_totality :
    (∀ (dt : Nat × Nat × Nat) (t : String), timeParse t = none →
        parse_time_et_to_ct dt t = .ok "") ∧
    (∀ (y mo d : Nat) (t : String) (hh mm : Nat) (ap : String),
        timeParse t = some (hh, mm, ap) →
        datetimeValid y mo d (hh % 12 + if ap == "p" then 12 else 0) mm →
        2 ≤ y → y ≤ 9000 →
        ∃ out, parse_time_et_to_ct (y, mo, d) t = .ok (isoFmt out)) := by
  constructor
  · intro dt t ht
    unfold parse_time_et_to_ct
    rw [ht]
  · intro y mo d t hh mm ap ht hv hy2 hy9
    obtain ⟨out, hout⟩ := astimezone_ok y mo d _ mm hv hy2 hy9
    refine ⟨out, ?_⟩
    rw [parse_time_of_parsed y mo d t hh mm ap ht, if_pos hv, hout]
    rfl

/-- Witness for C5: an unparseable text yields the empty string, and a
parseable one an ISO string. -/
theorem c5_normalizer_totality_witness :
    parse_time_et_to_ct (2025, 9, 4) "noon" = .ok "" :=
  c5_normalizer_totality.1 (2025, 9, 4) "noon" rfl

/-- C7: on a successful parse with a constructible datetime the
normalizer returns exactly the `strftime` image — seconds hard-coded to
`:00` — of the zone-database conversion of the wall time built from
dateYMD and hour mod 12 (+12 when the suffix is `p`) in the source zone;
concretely, (2025, 9, 4) with `8:20p` builds 20:20 America/New_York,
converts one hour back to America/Chicago, and prints
`2025-09-04T19:20:00`. -/
theorem c7_time_conversion :
    (∀ (y mo d : Nat) (t : String) (hh mm : Nat) (ap : String),
        timeParse t = some (hh, mm, ap) →
        datetimeValid y mo d (hh % 12 + if ap == "p" then 12 else 0) mm →
        parse_time_et_to_ct (y, mo, d) t =
          (astimezoneNYtoChicago y mo d
            (hh % 12 + if ap == "p" then 12 else 0) mm).map isoFmt) ∧
    timeParse "8:20p" = some (8, 20, "p") ∧
    astimezoneNYtoChicago 2025 9 4 20 20 = .ok (2025, 9, 4, 19, 20) ∧
    isoFmt (2025, 9, 4, 19, 20) = "2025-09-04T19:20:00" ∧
    parse_time_et_to_ct (2025, 9, 4) "8:20p" = .ok "2025-09-04T19:20:00" := by
  refine ⟨?_, rfl, rfl, rfl, rfl⟩
  intro y mo d t hh mm ap ht hv
  rw [parse_time_of_parsed y mo d t hh mm ap ht, if_pos hv]

/-- Witness for C7: the universal part applied at the concrete instance. -/
theorem c7_time_conversion_witness :
    parse_time_et_to_ct (2025, 9, 4) "8:20p" =
      (astimezoneNYtoChicago 2025 9 4 20 20).map isoFmt :=
  c7_time_conversion.1 2025 9 4 "8:20p" 8 20 "p" rfl (by decide)


/-! ## Simulation lemmas for the week-restart claim -/

theorem headerSt_sim (w : Nat) (s t : St) : SimRel w (headerSt s w) (headerSt t w) := by
  refine ⟨rfl, rfl, rfl, ?_, ?_, ?_⟩
  · show dget (dset s.weeks (toString w) []) (toString w) =
      dget (dset t.weeks (toString w) []) (toString w)
    rw [dget_dset_self, dget_dset_self]
  · show dget (dset s.game_counter w 0) w = dget (dset t.game_counter w 0) w
    rw [dget_dset_self, dget_dset_self]
  · intro u hu
    obtain rfl : w = u := by injection hu
    constructor
    · show dget (dset s.weeks (toString w) []) (toString w) =
        dget (dset t.weeks (toString w) []) (toString w)
      rw [dget_dset_self, dget_dset_self]
    · show dget (dset s.game_counter w 0) w = dget (dset t.game_counter w 0) w
      rw [dget_dset_self, dget_dset_self]

theorem stepTimes_sim (w : Nat) (s t : St) (ln : String) (hR : SimRel w s t) :
    (∃ e, stepTimes s ln = .error e ∧ stepTimes t ln = .error e) ∨
    (∃ s2 t2, stepTimes s ln = .ok s2 ∧ stepTimes t ln = .ok t2 ∧ SimRel w s2 t2) := by
  obtain ⟨hcw, hcd, hpg, hww, hcc, hall⟩ := hR
  by_cases hz : (rmatch zoneRX ln).isSome = true
  · exact Or.inr ⟨s, t, stepTimes_zone s ln hz, stepTimes_zone t ln hz,
      hcw, hcd, hpg, hww, hcc, hall⟩
  · have hz2 : (rmatch zoneRX ln).isSome = false := by simpa using hz
    by_cases hb : (rmatch bareRX ln).isSome = true
    case neg =>
      have hb2 : (rmatch bareRX ln).isSome = false := by simpa using hb
      exact Or.inr ⟨s, t, stepTimes_other s ln hz2 hb2, stepTimes_other t ln hz2 hb2,
        hcw, hcd, hpg, hww, hcc, hall⟩
    case pos =>
      cases hpgs : s.pending_game with
      | none =>
        have hpgt : t.pending_game = none := hpg ▸ hpgs
        exact Or.inr ⟨s, t, stepTimes_bare_missing s ln hz2 hb (Or.inl hpgs),
          stepTimes_bare_missing t ln hz2 hb (Or.inl hpgt),
          hcw, hcd, hpg, hww, hcc, hall⟩
      | some pg =>
        have hpgt : t.pending_game = some pg := hpg ▸ hpgs
        cases hcws : s.current_week with
        | none =>
          have hcwt : t.current_week = none := hcw ▸ hcws
          exact Or.inr ⟨s, t,
            stepTimes_bare_missing s ln hz2 hb (Or.inr (Or.inl hcws)),
            stepTimes_bare_missing t ln hz2 hb (Or.inr (Or.inl hcwt)),
            hcw, hcd, hpg, hww, hcc, hall⟩
        | some u =>
          have hcwt : t.current_week = some u := hcw ▸ hcws
          by_cases hu0 : u = 0
          · subst hu0
            exact Or.inr ⟨s, t,
              stepTimes_bare_missing s ln hz2 hb (Or.inr (Or.inr (Or.inr hcws))),
              stepTimes_bare_missing t ln hz2 hb (Or.inr (Or.inr (Or.inr hcwt))),
              hcw, hcd, hpg, hww, hcc, hall⟩
          · cases hcds : s.current_date with
            | none =>
              have hcdt : t.current_date = none := hcd ▸ hcds
              exact Or.inr ⟨s, t,
                stepTimes_bare_missing s ln hz2 hb (Or.inr (Or.inr (Or.inl hcds))),
                stepTimes_bare_missing t ln hz2 hb (Or.inr (Or.inr (Or.inl hcdt))),
                hcw, hcd, hpg, hww, hcc, hall⟩
            | some nd =>
              have hcdt : t.current_date = some nd := hcd ▸ hcds
              rw [stepTimes_bare_fire s ln pg u nd hz2 hb hpgs hcws hu0 hcds,
                  stepTimes_bare_fire t ln pg u nd hz2 hb hpgt hcwt hu0 hcdt]
              obtain ⟨hwu, hcu⟩ := hall u hcws
              have hceq : (dget s.game_counter u).getD 0 = (dget t.game_counter u).getD 0 := by
                rw [hcu]
              have hgeq : (dget s.weeks (toString u)).getD [] =
                  (dget t.weeks (toString u)).getD [] := by
                rw [hwu]
              cases hpar : parse_time_et_to_ct nd ln with
              | error e => exact Or.inl ⟨e, rfl, rfl⟩
              | ok iso =>
                refine Or.inr ⟨appendGame s u pg iso, appendGame t u pg iso, rfl, rfl,
                  hcw, hcd, rfl, ?_, ?_, ?_⟩
                · show dget (dset s.weeks (toString u) _) (toString w) =
                    dget (dset t.weeks (toString u) _) (toString w)
                  by_cases hk : (toString w) = (toString u)
                  · rw [hk, dget_dset_self, dget_dset_self, hgeq, hceq]
                  · rw [dget_dset_ne _ _ _ _ hk, dget_dset_ne _ _ _ _ hk]
                    exact hww
                · show dget (dset s.game_counter u _) w = dget (dset t.game_counter u _) w
                  by_cases hk : w = u
                  · rw [hk, dget_dset_self, dget_dset_self, hceq]
                  · rw [dget_dset_ne _ _ _ _ hk, dget_dset_ne _ _ _ _ hk]
                    exact hcc
                · intro u2 hu2
                  have hsu2 : s.current_week = some u2 := hu2
                  rw [hcws] at hsu2
                  obtain rfl : u = u2 := by injection hsu2
                  constructor
                  · show dget (dset s.weeks (toString u) _) (toString u) =
                      dget (dset t.weeks (toString u) _) (toString u)
                    rw [dget_dset_self, dget_dset_self, hgeq, hceq]
                  · show dget (dset s.game_counter u _) u = dget (dset t.game_counter u _) u
                    rw [dget_dset_self, dget_dset_self, hceq]

theorem stepLine_sim (w : Nat) (s t : St) (ln : String) (hR : SimRel w s t) :
    (∃ e, stepLine s ln = .error e ∧ stepLine t ln = .error e) ∨
    (∃ s2 t2, stepLine s ln = .ok s2 ∧ stepLine t ln = .ok t2 ∧ SimRel w s2 t2) := by
  obtain ⟨hcw, hcd, hpg, hww, hcc, hall⟩ := hR
  cases hwm : rmatch weekRX ln with
  | some caps =>
    refine Or.inr ⟨headerSt s (weekOf caps), headerSt t (weekOf caps), ?_, ?_, ?_⟩
    · rw [stepLine_week s ln caps hwm]
      rfl
    · rw [stepLine_week t ln caps hwm]
      rfl
    · set u := weekOf caps with hu
      refine ⟨rfl, rfl, rfl, ?_, ?_, ?_⟩
      · show dget (dset s.weeks (toString u) []) (toString w) =
          dget (dset t.weeks (toString u) []) (toString w)
        by_cases hk : (toString w) = (toString u)
        · rw [hk, dget_dset_self, dget_dset_self]
        · rw [dget_dset_ne _ _ _ _ hk, dget_dset_ne _ _ _ _ hk]
          exact hww
      · show dget (dset s.game_counter u 0) w = dget (dset t.game_counter u 0) w
        by_cases hk : w = u
        · rw [hk, dget_dset_self, dget_dset_self]
        · rw [dget_dset_ne _ _ _ _ hk, dget_dset_ne _ _ _ _ hk]
          exact hcc
      · intro u2 hu2
        obtain rfl : u = u2 := by injection hu2
        constructor
        · show dget (dset s.weeks (toString u) []) (toString u) =
            dget (dset t.weeks (toString u) []) (toString u)
          rw [dget_dset_self, dget_dset_self]
        · show dget (dset s.game_counter u 0) u = dget (dset t.game_counter u 0) u
          rw [dget_dset_self, dget_dset_self]
  | none =>
    by_cases hd : (rmatch dateRX ln).isSome = true
    · rw [stepLine_date s ln hwm hd, stepLine_date t ln hwm hd]
      cases hnd : normalize_date_line ln with
      | some nd =>
        exact Or.inr ⟨_, _, rfl, rfl, hcw, rfl, hpg, hww, hcc, hall⟩
      | none => exact Or.inr ⟨s, t, rfl, rfl, hcw, hcd, hpg, hww, hcc, hall⟩
    · have hd2 : (rmatch dateRX ln).isSome = false := by simpa using hd
      cases hg : rmatch gameRX ln with
      | some caps =>
        have htt : truthyW t.current_week = truthyW s.current_week := by rw [hcw]
        by_cases ht : truthyW s.current_week = true
        · rw [stepLine_game s ln caps hwm hd2 hg ht,
              stepLine_game t ln caps hwm hd2 hg (by rw [htt]; exact ht)]
          exact Or.inr ⟨_, _, rfl, rfl, hcw, hcd, rfl, hww, hcc, hall⟩
        · have ht2 : truthyW s.current_week = false := by simpa using ht
          rw [stepLine_times_of_falsy_week s ln caps hwm hd2 hg ht2,
              stepLine_times_of_falsy_week t ln caps hwm hd2 hg (by rw [htt]; exact ht2)]
          exact stepTimes_sim w s t ln ⟨hcw, hcd, hpg, hww, hcc, hall⟩
      | none =>
        rw [stepLine_times_of_no_game s ln hwm hd2 hg,
            stepLine_times_of_no_game t ln hwm hd2 hg]
        exact stepTimes_sim w s t ln ⟨hcw, hcd, hpg, hww, hcc, hall⟩

theorem runLines_sim (w : Nat) (lines : List String) (s t : St) (hR : SimRel w s t) :
    (∃ e, runLines s lines = .error e ∧ runLines t lines = .error e) ∨
    (∃ s2 t2, runLines s lines = .ok s2 ∧ runLines t lines = .ok t2 ∧ SimRel w s2 t2) := by
  induction lines generalizing s t with
  | nil => exact Or.inr ⟨s, t, rfl, rfl, hR⟩
  | cons ln rest ih =>
    rcases stepLine_sim w s t ln hR with ⟨e, he1, he2⟩ | ⟨s2, t2, h1, h2, hR2⟩
    · exact Or.inl ⟨e, by rw [runLines, he1], by rw [runLines, he2]⟩
    · have e1 : runLines s (ln :: rest) = runLines s2 rest := by rw [runLines, h1]
      have e2 : runLines t (ln :: rest) = runLines t2 rest := by rw [runLines, h2]
      rw [e1, e2]
      exact ih s2 t2 hR2

/-- C10: a week-header line reassigns `weeks[str(w)]` to a fresh empty
list; consequently, for any run that splits as `pre ++ header ++ suf`, the
returned `weeks[str(w)]` equals the one produced by running the header and
suffix alone — every game recorded for `w` before the header is silently
discarded. -/
theorem c10_week_header_discards (pre suf : List String) (ln : String)
    (caps : Caps) (doc : Doc)
    (hln : rmatch weekRX ln = some caps)
    (h : build_schedule (pre ++ ln :: suf) = .ok doc) :
    (∀ s : St, ∃ s2, stepLine s ln = .ok s2 ∧
        dget s2.weeks (toString (weekOf caps)) = some []) ∧
    (∃ doc2, build_schedule (ln :: suf) = .ok doc2 ∧
      dget doc.weeks (toString (weekOf caps)) =
        dget doc2.weeks (toString (weekOf caps))) := by
  constructor
  · intro s
    refine ⟨headerSt s (weekOf caps), ?_, ?_⟩
    · rw [stepLine_week s ln caps hln]
      rfl
    · show dget (dset s.weeks (toString (weekOf caps)) []) (toString (weekOf caps)) = some []
      rw [dget_dset_self]
  · unfold build_schedule at h ⊢
    cases hrun : runLines initSt (pre ++ ln :: suf) with
    | error e =>
      rw [hrun] at h
      cases h
    | ok sfin =>
      rw [hrun] at h
      have hdoc : Doc.mk 2025 sfin.weeks = doc := by simpa [Except.map] using h
      rw [runLines_append] at hrun
      cases hpre : runLines initSt pre with
      | error e =>
        rw [hpre] at hrun
        cases hrun
      | ok smid =>
        rw [hpre] at hrun
        have hs : stepLine smid ln = .ok (headerSt smid (weekOf caps)) := by
          rw [stepLine_week smid ln caps hln]
          rfl
        have ht : stepLine initSt ln = .ok (headerSt initSt (weekOf caps)) := by
          rw [stepLine_week initSt ln caps hln]
          rfl
        have hmid : runLines smid (ln :: suf) = .ok sfin := hrun
        have hrun2 : runLines (headerSt smid (weekOf caps)) suf = .ok sfin := by
          have e1 : runLines smid (ln :: suf) =
              runLines (headerSt smid (weekOf caps)) suf := by
            rw [runLines, hs]
          rw [e1] at hmid
          exact hmid
        rcases runLines_sim (weekOf caps) suf (headerSt smid (weekOf caps))
            (headerSt initSt (weekOf caps))
            (headerSt_sim (weekOf caps) smid initSt) with
          ⟨e, he1, he2⟩ | ⟨s2, t2, h1, h2, hR⟩
        · rw [he1] at hrun2
          cases hrun2
        · rw [h1] at hrun2
          obtain rfl : s2 = sfin := by injection hrun2
          refine ⟨⟨2025, t2.weeks⟩, ?_, ?_⟩
          · have e2 : runLines initSt (ln :: suf) = runLines
                (headerSt initSt (weekOf caps)) suf := by
              rw [runLines, ht]
            rw [e2, h2]
            rfl
          · rw [← hdoc]
            exact hR.2.2.2.1

/-- Witness for C10: the duplicated week-1 run keeps only the post-header
game under "1", matching the suffix-only run (whose document lacks the
week-2 entry the full run carries). -/
theorem c10_week_header_discards_witness :
    dget dupDoc.weeks "1" = dget dupDoc2.weeks "1" := by
  obtain ⟨doc2, hb, heq⟩ :=
    (c10_week_header_discards dupPre dupSuf "WEEK 1" [(1, ['1'])] dupDoc rfl rfl).2
  have h3 : (Except.ok doc2 : Except PyErr Doc) = .ok dupDoc2 := by
    rw [← hb]
    rfl
  obtain rfl : doc2 = dupDoc2 := by injection h3
  exact heq

end NflPickem
